import Mathlib

/-!
Shallow embedding of the `google_automation` core of the tzustu63/seo
repository (files `core/url_manager.py`, `core/search_analyzer.py`,
`core/google_automation.py`, `core/keyword_manager.py`), together with
proofs about the embedded operations.

Python machine floats are modelled as exact rationals, Python `int` as `Int`
or `Nat`, Python strings as Lean `String` manipulated through their
character lists.  The regular-expression engine (`re` module) is an external
library, so it is modelled as an explicit function parameter:
`re_search target found` stands for `bool(re.compile(target).search(found))`
with `none` standing for an `re.error` raised by `re.compile`, and
`re_compiles pat` stands for `re.compile(pat)` succeeding.
-/

/-- Python `s.rstrip('/')` on the character list: drop trailing characters
satisfying `p`. -/
def listRstrip (p : Char → Bool) (l : List Char) : List Char :=
  (l.reverse.dropWhile p).reverse

/-- Python `url.rstrip('/')`. -/
def rstripSlash (s : String) : String :=
  (listRstrip (fun c => c == '/') s.toList).asString

/-- Python `s.startswith(p)`: `p` is a prefix of `s`. -/
def strStartsWith (s p : String) : Bool :=
  decide (p.toList <+: s.toList)

/-- Python `t in s`: `t` occurs as a contiguous substring of `s`. -/
def strContainsSub (s t : String) : Bool :=
  decide (t.toList <:+: s.toList)

/-- Characters terminating the network-location component in
`urllib.parse.urlsplit`. -/
def netlocDelim (c : Char) : Bool :=
  c == '/' || c == '?' || c == '#'

/-- Characters admissible in a URL scheme (`urllib.parse.scheme_chars`):
ASCII letters, digits, `+`, `-`, `.`. -/
def schemeChar (c : Char) : Bool :=
  c.isAlpha || c.isDigit || c == '+' || c == '-' || c == '.'

/-- Scheme detection of `urllib.parse.urlsplit`: the text before the first
`:` is the scheme when it is nonempty, starts with an ASCII letter and
consists of scheme characters; it is lowercased and split off.  Returns
`(scheme, rest)`. -/
def splitScheme (l : List Char) : List Char × List Char :=
  match l.findIdx? (fun c => c == ':') with
  | some i =>
    if 0 < i && (l.take i).all schemeChar &&
        (match l.head? with | some c => c.isAlpha | none => false) then
      ((l.take i).map Char.toLower, l.drop (i + 1))
    else ([], l)
  | none => ([], l)

/-- Network location of `urllib.parse.urlsplit`: after removing the scheme,
a leading `//` introduces the netloc, which extends to the next `/`, `?`
or `#`. -/
def parseNetloc (l : List Char) : List Char :=
  match (splitScheme l).2 with
  | '/' :: '/' :: r => r.takeWhile (fun c => !netlocDelim c)
  | _ => []

/-- Python `urlparse(url).netloc`. -/
def urlparse_netloc (url : String) : String :=
  (parseNetloc url.toList).asString

/-- Python `urlparse(url).scheme`. -/
def urlparse_scheme (url : String) : String :=
  ((splitScheme url.toList).1).asString

/-- The characters that `URLManager._validate_url` treats as marking a
regex pattern (`*+?()[]{}|\^$`). -/
def regexSpecial : List Char :=
  ['*', '+', '?', '(', ')', '[', ']', Char.ofNat 123, Char.ofNat 125,
   '|', '\\', '^', '$']

/-- Python `URLConfig` dataclass of `url_manager.py`. -/
structure URLConfig where
  url : String
  enabled : Bool := true
  priority : Int := 1
  match_type : String := "contains"
  keywords : List String := []
  max_attempts : Int := 3
  deriving Repr, DecidableEq

/-- The state of a `URLManager`: its list of target URL configurations. -/
structure URLManager where
  urls : List URLConfig
  deriving Repr, DecidableEq

/-- Python `URLManager._validate_url`.  `re_compiles pat` models `re.compile(pat)`
succeeding. -/
def URLManager.validate_url (re_compiles : String → Bool) (url : String) : Bool :=
  if url.toList.any (fun c => regexSpecial.contains c) then re_compiles url
  else !(urlparse_scheme url == "") && !(urlparse_netloc url == "")

/-- Python `URLManager._normalize_url`: strip trailing slashes, prefix `https://`
when no `http://`/`https://` scheme is present. -/
def URLManager.normalize_url (url : String) : String :=
  let url := rstripSlash url
  if strStartsWith url "http://" || strStartsWith url "https://" then url
  else "https://" ++ url

/-- Python `URLManager.get_url_config`: first stored entry whose `url` field equals
the argument. -/
def URLManager.get_url_config (m : URLManager) (url : String) : Option URLConfig :=
  m.urls.find? (fun cfg => cfg.url == url)

/-- The policy dispatch of `URLManager.match_url` after the target lookup,
applied to the raw found/target strings.  `re_search t f` models
`bool(re.compile(t).search(f))`, `none` modelling `re.error`. -/
def match_url_core (re_search : String → String → Option Bool)
    (match_type found_url target_url : String) : Bool :=
  let found := URLManager.normalize_url found_url
  let target := URLManager.normalize_url target_url
  if match_type == "exact" then found == target
  else if match_type == "contains" then strContainsSub found target
  else if match_type == "domain" then urlparse_netloc found == urlparse_netloc target
  else if match_type == "regex" then
    match re_search target found with
    | some b => b
    | none => false
  else strContainsSub found target

/-- Python `URLManager.match_url`: look up the target's configuration; with no
configuration the result is `False`, otherwise dispatch on its
`match_type`. -/
def URLManager.match_url (re_search : String → String → Option Bool)
    (m : URLManager) (found_url target_url : String) : Bool :=
  match m.get_url_config target_url with
  | none => false
  | some cfg => match_url_core re_search cfg.match_type found_url target_url

/-- Python `URLManager.get_all_urls`: enabled targets, in stored order. -/
def URLManager.get_all_urls (m : URLManager) : List String :=
  (m.urls.filter (fun cfg => cfg.enabled)).map (fun cfg => cfg.url)

/-- The manager obtained by rewriting the `match_type` of every entry for
`target_url` to `"contains"`, leaving everything else identical (the
"otherwise-identical target entry with match_type contains"). -/
def URLManager.set_contains (m : URLManager) (target_url : String) : URLManager :=
  ⟨m.urls.map (fun cfg =>
    if cfg.url == target_url then { cfg with match_type := "contains" } else cfg)⟩

/-! ## Search analyzer (`search_analyzer.py`) -/

/-- Python `SearchResult` dataclass: one recorded outcome.  `timestamp` is the
`time.time()` value captured at recording, modelled as an input. -/
structure SearchResult where
  keyword : String
  target_url : String
  success : Bool
  page_found : Int
  execution_time : ℚ
  timestamp : ℚ
  error : Option String := none
  deriving Repr, DecidableEq

/-- Python `KeywordStats` dataclass with its Python default field values. -/
structure KeywordStats where
  keyword : String
  total_searches : Nat := 0
  successful_searches : Nat := 0
  failed_searches : Nat := 0
  average_page_position : ℚ := 0
  average_execution_time : ℚ := 0
  success_rate : ℚ := 0
  last_search_time : Option ℚ := none
  deriving Repr, DecidableEq

/-- Python `URLStats` dataclass with its Python default field values. -/
structure URLStats where
  url : String
  total_clicks : Nat := 0
  successful_clicks : Nat := 0
  failed_clicks : Nat := 0
  average_page_position : ℚ := 0
  click_rate : ℚ := 0
  last_click_time : Option ℚ := none
  deriving Repr, DecidableEq

/-- Association-list lookup modelling Python `dict` access by key. -/
def alFind (l : List (String × α)) (k : String) : Option α :=
  match l with
  | [] => none
  | (k', v) :: rest => if k' == k then some v else alFind rest k

/-- Association-list update modelling
`d.setdefault(k, init)` followed by in-place mutation by `f`: the first
entry with key `k` is replaced, and a missing key is appended (Python dicts
keep insertion order). -/
def alUpdate (l : List (String × α)) (k : String) (init : α) (f : α → α) :
    List (String × α) :=
  match l with
  | [] => [(k, f init)]
  | (k', v) :: rest =>
    if k' == k then (k', f v) :: rest else (k', v) :: alUpdate rest k init f

/-- Python `SearchAnalyzer._update_keyword_stats` on a single `KeywordStats`
value. -/
def update_keyword_stats (stats : KeywordStats) (r : SearchResult) : KeywordStats :=
  let stats := { stats with
    total_searches := stats.total_searches + 1
    last_search_time := some r.timestamp }
  let stats :=
    if r.success then
      let stats := { stats with successful_searches := stats.successful_searches + 1 }
      if 0 < r.page_found then
        if stats.average_page_position == 0 then
          { stats with average_page_position := (r.page_found : ℚ) }
        else
          { stats with average_page_position :=
              (stats.average_page_position * ((stats.successful_searches : ℚ) - 1)
                + (r.page_found : ℚ)) / (stats.successful_searches : ℚ) }
      else stats
    else { stats with failed_searches := stats.failed_searches + 1 }
  let stats := { stats with
    success_rate := (stats.successful_searches : ℚ) / (stats.total_searches : ℚ) }
  if stats.average_execution_time == 0 then
    { stats with average_execution_time := r.execution_time }
  else
    { stats with average_execution_time :=
        (stats.average_execution_time * ((stats.total_searches : ℚ) - 1)
          + r.execution_time) / (stats.total_searches : ℚ) }

/-- Python `SearchAnalyzer._update_url_stats` on a single `URLStats` value. -/
def update_url_stats (stats : URLStats) (r : SearchResult) : URLStats :=
  let stats := { stats with
    total_clicks := stats.total_clicks + 1
    last_click_time := some r.timestamp }
  let stats :=
    if r.success then
      let stats := { stats with successful_clicks := stats.successful_clicks + 1 }
      if 0 < r.page_found then
        if stats.average_page_position == 0 then
          { stats with average_page_position := (r.page_found : ℚ) }
        else
          { stats with average_page_position :=
              (stats.average_page_position * ((stats.successful_clicks : ℚ) - 1)
                + (r.page_found : ℚ)) / (stats.successful_clicks : ℚ) }
      else stats
    else { stats with failed_clicks := stats.failed_clicks + 1 }
  { stats with
    click_rate := (stats.successful_clicks : ℚ) / (stats.total_clicks : ℚ) }

/-- The mutable state of a `SearchAnalyzer`. -/
structure SearchAnalyzer where
  search_results : List SearchResult := []
  keyword_stats : List (String × KeywordStats) := []
  url_stats : List (String × URLStats) := []
  total_searches : Nat := 0
  total_successful_searches : Nat := 0
  deriving Repr, DecidableEq

/-- The freshly constructed `SearchAnalyzer()`. -/
def SearchAnalyzer.init : SearchAnalyzer := {}

/-- Python `SearchAnalyzer.record_search_result`: build the `SearchResult`, append
it to the log, update both derived stat maps and the global counters.  The
argument record carries the call's arguments together with the
`time.time()` timestamp. -/
def SearchAnalyzer.record_search_result (a : SearchAnalyzer) (r : SearchResult) :
    SearchAnalyzer :=
  { a with
    search_results := a.search_results ++ [r]
    keyword_stats := alUpdate a.keyword_stats r.keyword
      { keyword := r.keyword } (fun s => update_keyword_stats s r)
    url_stats := alUpdate a.url_stats r.target_url
      { url := r.target_url } (fun s => update_url_stats s r)
    total_searches := a.total_searches + 1
    total_successful_searches :=
      if r.success then a.total_successful_searches + 1
      else a.total_successful_searches }

/-- Run a sequence of `record_search_result` calls on a fresh analyzer. -/
def runRecords (rs : List SearchResult) : SearchAnalyzer :=
  rs.foldl SearchAnalyzer.record_search_result SearchAnalyzer.init

/-- The recorded outcomes for keyword `k` that were successes. -/
def successesFor (rs : List SearchResult) (k : String) : List SearchResult :=
  rs.filter (fun r => r.keyword == k && r.success)

/-- The recorded outcomes for target URL `u` that were successes. -/
def urlSuccessesFor (rs : List SearchResult) (u : String) : List SearchResult :=
  rs.filter (fun r => r.target_url == u && r.success)

/-- All recorded outcomes for keyword `k`. -/
def entriesFor (rs : List SearchResult) (k : String) : List SearchResult :=
  rs.filter (fun r => r.keyword == k)

/-- All recorded outcomes for target URL `u`. -/
def urlEntriesFor (rs : List SearchResult) (u : String) : List SearchResult :=
  rs.filter (fun r => r.target_url == u)

/-- The `average_page_position` of keyword `k`, when `k` has stats. -/
def avgPagePositionOf (a : SearchAnalyzer) (k : String) : Option ℚ :=
  (alFind a.keyword_stats k).map (fun st => st.average_page_position)

/-- The `average_page_position` of target URL `u`, when `u` has stats. -/
def urlAvgPagePositionOf (a : SearchAnalyzer) (u : String) : Option ℚ :=
  (alFind a.url_stats u).map (fun st => st.average_page_position)

/-- The `average_execution_time` of keyword `k`, when `k` has stats. -/
def avgExecutionTimeOf (a : SearchAnalyzer) (k : String) : Option ℚ :=
  (alFind a.keyword_stats k).map (fun st => st.average_execution_time)

/-! ## Pagination walker and orchestrator (`google_automation.py`,
`keyword_manager.py`)

The browser session is an external collaborator; it is modelled by an
environment `env : Nat → Option ResultPage` giving, for the `page`-th
iteration of the scan loop (0-based), the rendered page: its link `href`s
(links whose `href` is `None` or whose inspection raises are skipped by the
inner `try`, so they are simply omitted from the list) and whether the
next-page control is present.  `env page = none` models a collaborator
exception in that iteration's body, which the outer `except` turns into a
`break`.  A matching link's click is modelled as succeeding. -/

/-- One rendered search-result page as seen by
`find_and_click_target_url`. -/
structure ResultPage where
  links : List String
  hasNext : Bool
  deriving Repr, DecidableEq

/-- The loop of `find_and_click_target_url`, from loop counter `page` with
`fuel = max_pages - page` iterations remaining; `scans` counts completed
page scans.  Returns `((success, page_number), scans)`. -/
def find_and_click_loop (env : Nat → Option ResultPage) (matcher : String → Bool)
    (max_pages : Nat) : Nat → Nat → Nat → (Bool × Nat) × Nat
  | _, 0, scans => ((false, 0), scans)
  | page, fuel + 1, scans =>
    match env page with
    | none => ((false, 0), scans)
    | some p =>
      if p.links.any matcher then ((true, page + 1), scans + 1)
      else if page < max_pages - 1 then
        if p.hasNext then find_and_click_loop env matcher max_pages (page + 1) fuel (scans + 1)
        else ((false, 0), scans + 1)
      else ((false, 0), scans + 1)

/-- Python `GoogleSearchAutomation.find_and_click_target_url`, with the number of
page scans it performed: `for page in range(max_pages)` scans at most
`max_pages` pages; on a matching link it returns `(True, page + 1)`; a
missing next-page control, a collaborator error, or page exhaustion leaves
`(False, 0)`. -/
def find_and_click_target_url (env : Nat → Option ResultPage)
    (matcher : String → Bool) (max_pages : Nat) : (Bool × Nat) × Nat :=
  find_and_click_loop env matcher max_pages 0 max_pages 0

/-- The result dictionary built by `execute_search_task` (the
`execution_time` and analyzer-recording bookkeeping are not modelled:
the claims concern the returned `success`/`page_found` fields). -/
structure TaskResult where
  keyword : String
  target_url : String
  success : Bool
  page_found : Nat
  error : Option String
  deriving Repr, DecidableEq

/-- Python `GoogleSearchAutomation.execute_search_task`: `search_ok` models the
boolean returned by `search_keyword`; on failure the initial result with
`error = 'Search failed'` is returned, otherwise the pair returned by
`find_and_click_target_url` fills `success` and `page_found`. -/
def execute_search_task (re_search : String → String → Option Bool)
    (m : URLManager) (env : Nat → Option ResultPage) (search_ok : Bool)
    (keyword target_url : String) (max_pages : Nat) : TaskResult :=
  if !search_ok then
    { keyword := keyword, target_url := target_url, success := false,
      page_found := 0, error := some "Search failed" }
  else
    let r := (find_and_click_target_url env
      (fun href => URLManager.match_url re_search m href target_url) max_pages).1
    { keyword := keyword, target_url := target_url, success := r.1,
      page_found := r.2, error := none }

/-- Python `KeywordConfig` dataclass of `keyword_manager.py`. -/
structure KeywordConfig where
  keyword : String
  enabled : Bool := true
  priority : Int := 1
  max_pages : Option Int := none
  search_modifiers : List String := []
  deriving Repr, DecidableEq

/-- The state of a `KeywordManager`: its list of keyword configurations. -/
structure KeywordManager where
  keywords : List KeywordConfig
  deriving Repr, DecidableEq

/-- Python `KeywordManager.get_all_keywords`: enabled keywords, in stored order. -/
def KeywordManager.get_all_keywords (km : KeywordManager) : List String :=
  (km.keywords.filter (fun kw => kw.enabled)).map (fun kw => kw.keyword)

/-- The (keyword, target) pairs visited by the sequential branch of
`run_automation_cycle`: the keyword-major cross product of the enabled
keywords and enabled target URLs, in registry order. -/
def cyclePairs (km : KeywordManager) (um : URLManager) : List (String × String) :=
  (km.get_all_keywords).flatMap (fun kw =>
    (um.get_all_urls).map (fun url => (kw, url)))

/-- The sequential branch of `GoogleSearchAutomation.run_automation_cycle`
(`random_execution` disabled): one `execute_search_task` per (enabled
keyword, enabled target URL) pair, keyword-major, each result appended to
the returned list.  `task` abstracts `execute_search_task` applied to the
live browser session; per the modelling assumptions browser acquisition
succeeded and no exception escapes a task, so every pair is executed. -/
def run_automation_cycle_seq (km : KeywordManager) (um : URLManager)
    (task : String → String → TaskResult) : List TaskResult :=
  (km.get_all_keywords).flatMap (fun kw =>
    (um.get_all_urls).map (fun url => task kw url))

/-! ## State invariants used in the proofs -/

/-- Generic relation between a per-key stats entry and the outcome log,
for a stats map keyed by `keyOf` with success counter `getCnt` and
success-position running mean `getAvg`: the counter counts the key's
successes and the mean is the page-position mean of those successes (with
`0/0 = 0` when there are none); the mean's numerator dominates the count
because every success position in the traces considered is at least 1. -/
def genPosInv {σ : Type} (getCnt : σ → Nat) (getAvg : σ → ℚ)
    (keyOf : SearchResult → String) (l : List (String × σ))
    (log : List SearchResult) (k : String) : Prop :=
  (alFind l k = none → log.filter (fun r => keyOf r == k && r.success) = [])
  ∧ ∀ st, alFind l k = some st →
      getCnt st = (log.filter (fun r => keyOf r == k && r.success)).length
      ∧ getAvg st
          = ((log.filter (fun r => keyOf r == k && r.success)).map
              (fun r => (r.page_found : ℚ))).sum
            / ((log.filter (fun r => keyOf r == k && r.success)).length : ℚ)
      ∧ ((log.filter (fun r => keyOf r == k && r.success)).length : ℚ)
          ≤ ((log.filter (fun r => keyOf r == k && r.success)).map
              (fun r => (r.page_found : ℚ))).sum

/-- Generic counting relation between a per-key stats entry and the
outcome log: total counts the key's entries, the success counter its
successes, and successes plus failures equal the total. -/
def genCntInv {σ : Type} (getTot getSucc getFail : σ → Nat)
    (keyOf : SearchResult → String) (l : List (String × σ))
    (log : List SearchResult) (k : String) : Prop :=
  (alFind l k = none → log.filter (fun r => keyOf r == k) = [])
  ∧ ∀ st, alFind l k = some st →
      getTot st = (log.filter (fun r => keyOf r == k)).length
      ∧ getSucc st = (log.filter (fun r => keyOf r == k && r.success)).length
      ∧ getSucc st + getFail st = getTot st

/-- Relation between the keyword stats entry for `k` and the outcome log
for the execution-time running mean (with `0/0 = 0` for no entries): it is
the mean of all of the key's execution times, whose sum stays positive on
the traces considered. -/
def execInvK (a : SearchAnalyzer) (k : String) : Prop :=
  (alFind a.keyword_stats k = none → entriesFor a.search_results k = [])
  ∧ ∀ st, alFind a.keyword_stats k = some st →
      st.total_searches = (entriesFor a.search_results k).length
      ∧ st.average_execution_time
          = ((entriesFor a.search_results k).map (fun r => r.execution_time)).sum
            / ((entriesFor a.search_results k).length : ℚ)
      ∧ (entriesFor a.search_results k = []
          ∨ 0 < ((entriesFor a.search_results k).map (fun r => r.execution_time)).sum)

/-- Sum of the `total_searches` counters over all keyword-stats entries. -/
def keywordTotalSum (a : SearchAnalyzer) : Nat :=
  (a.keyword_stats.map (fun p => p.2.total_searches)).sum

/-! ## Helper lemmas -/

theorem alFind_alUpdate_self (l : List (String × α)) (k : String) (init : α)
    (f : α → α) :
    alFind (alUpdate l k init f) k = some (f ((alFind l k).getD init)) := by
  induction l with
  | nil => simp [alFind, alUpdate]
  | cons hd tl ih =>
    obtain ⟨k', v⟩ := hd
    by_cases hk : k' == k
    · simp [alFind, alUpdate, hk]
    · simp only [alFind, alUpdate, hk]
      simpa [hk] using ih

theorem alFind_alUpdate_ne (l : List (String × α)) (k k' : String) (init : α)
    (f : α → α) (h : k' ≠ k) :
    alFind (alUpdate l k init f) k' = alFind l k' := by
  have h' : ¬(k = k') := fun hc => h hc.symm
  induction l with
  | nil => simp [alFind, alUpdate, h']
  | cons hd tl ih =>
    obtain ⟨k'', v⟩ := hd
    by_cases hk : k'' == k
    · have : ¬(k'' == k') := by
        simp only [beq_iff_eq] at hk ⊢
        exact fun hc => h (hc ▸ hk)
      simp [alFind, alUpdate, hk, this]
    · by_cases hk' : k'' == k'
      · simp [alFind, alUpdate, hk, hk']
      · simp only [alFind, alUpdate, hk, hk', if_neg]
        simpa using ih

theorem find_and_click_loop_scans_le (env : Nat → Option ResultPage)
    (matcher : String → Bool) (max_pages : Nat) :
    ∀ fuel page scans,
      (find_and_click_loop env matcher max_pages page fuel scans).2 ≤ scans + fuel := by
  intro fuel
  induction fuel with
  | zero => intro page scans; simp [find_and_click_loop]
  | succ n ih =>
    intro page scans
    unfold find_and_click_loop
    cases env page with
    | none => simp
    | some p =>
      by_cases hm : p.links.any matcher
      · simp [hm]
      · by_cases hlt : page < max_pages - 1
        · by_cases hn : p.hasNext
          · simp only [hm, hlt, hn, if_true, if_false]
            calc (find_and_click_loop env matcher max_pages (page + 1) n (scans + 1)).2
                ≤ scans + 1 + n := ih (page + 1) (scans + 1)
              _ = scans + (n + 1) := by omega
          · simp [hm, hlt, hn]
        · simp [hm, hlt]

theorem find_and_click_loop_shape (env : Nat → Option ResultPage)
    (matcher : String → Bool) (max_pages : Nat) :
    ∀ fuel page scans,
      ((find_and_click_loop env matcher max_pages page fuel scans).1.1 = true
        ∧ 1 ≤ (find_and_click_loop env matcher max_pages page fuel scans).1.2)
      ∨ (find_and_click_loop env matcher max_pages page fuel scans).1 = (false, 0) := by
  intro fuel
  induction fuel with
  | zero => intro page scans; simp [find_and_click_loop]
  | succ n ih =>
    intro page scans
    unfold find_and_click_loop
    cases env page with
    | none => simp
    | some p =>
      by_cases hm : p.links.any matcher
      · left; simp [hm]
      · by_cases hlt : page < max_pages - 1
        · by_cases hn : p.hasNext
          · simpa [hm, hlt, hn] using ih (page + 1) (scans + 1)
          · right; simp [hm, hlt, hn]
        · right; simp [hm, hlt]

/-! ## Claims -/

/-- C9: `match_url` consults the registry for the target's configuration,
so a `target_url` that is not the `url` field of any stored entry never
matches any found URL. -/
theorem c9_unregistered_target_never_matches
    (re_search : String → String → Option Bool) (m : URLManager)
    (found_url target_url : String)
    (h : ∀ cfg ∈ m.urls, cfg.url ≠ target_url) :
    URLManager.match_url re_search m found_url target_url = false := by
  have hfind : m.get_url_config target_url = none := by
    unfold URLManager.get_url_config
    exact List.find?_eq_none.mpr (fun cfg hc => by simp [h cfg hc])
  unfold URLManager.match_url
  rw [hfind]

/-- Witness for C9: a found URL equal character for character to the
unregistered target string still does not match. -/
theorem c9_witness :
    URLManager.match_url (fun _ _ => none) ⟨[{ url := "https://a.com" }]⟩
      "https://b.com" "https://b.com" = false :=
  c9_unregistered_target_never_matches _ _ _ _ (by decide)

/-- C7: for a registered target whose `match_type` is none of the four
known policies, `match_url` falls through to the default branch, which is
extensionally the `contains` semantics: it equals the `contains` policy
dispatch, and it equals `match_url` on the manager in which that entry's
`match_type` is rewritten to `"contains"` (everything else identical).
The fallback branch contains no raising operation (the embedding is a
total function). -/
theorem c7_unknown_policy_is_contains
    (re_search : String → String → Option Bool) (m : URLManager)
    (found_url target_url : String) (cfg : URLConfig)
    (hfind : m.get_url_config target_url = some cfg)
    (h1 : cfg.match_type ≠ "exact") (h2 : cfg.match_type ≠ "contains")
    (h3 : cfg.match_type ≠ "domain") (h4 : cfg.match_type ≠ "regex") :
    URLManager.match_url re_search m found_url target_url
      = match_url_core re_search "contains" found_url target_url
    ∧ URLManager.match_url re_search m found_url target_url
      = URLManager.match_url re_search (m.set_contains target_url) found_url target_url := by
  have hcfg : (cfg.url == target_url) = true := by
    have h0 : List.find? (fun c : URLConfig => c.url == target_url) m.urls = some cfg := by
      simpa [URLManager.get_url_config] using hfind
    exact @List.find?_some URLConfig (fun c => c.url == target_url) cfg m.urls h0
  have hcore : match_url_core re_search cfg.match_type found_url target_url
      = match_url_core re_search "contains" found_url target_url := by
    unfold match_url_core
    have e1 : (cfg.match_type == "exact") = false := by simp [h1]
    have e2 : (cfg.match_type == "contains") = false := by simp [h2]
    have e3 : (cfg.match_type == "domain") = false := by simp [h3]
    have e4 : (cfg.match_type == "regex") = false := by simp [h4]
    simp [e1, e2, e3, e4]
  have hfind' : (m.set_contains target_url).get_url_config target_url
      = some { cfg with match_type := "contains" } := by
    unfold URLManager.set_contains URLManager.get_url_config
    have hp : (fun c : URLConfig => c.url == target_url) ∘
        (fun c : URLConfig =>
          if c.url == target_url then { c with match_type := "contains" } else c)
        = fun c : URLConfig => c.url == target_url := by
      funext c
      by_cases hc : c.url = target_url <;> simp [Function.comp, hc]
    rw [List.find?_map, hp]
    have : m.urls.find? (fun c => c.url == target_url) = some cfg := by
      simpa [URLManager.get_url_config] using hfind
    rw [this]
    have hurl : cfg.url = target_url := by simpa using hcfg
    simp [hurl]
  constructor
  · unfold URLManager.match_url
    rw [hfind]
    exact hcore
  · unfold URLManager.match_url
    rw [hfind, hfind']
    exact hcore

/-- Witness for C7: an entry with the unrecognized policy `"fuzzy"`. -/
theorem c7_witness :
    URLManager.match_url (fun _ _ => none)
        ⟨[{ url := "https://t.com", match_type := "fuzzy" }]⟩
        "https://t.com/x" "https://t.com"
      = match_url_core (fun _ _ => none) "contains" "https://t.com/x" "https://t.com"
    ∧ URLManager.match_url (fun _ _ => none)
        ⟨[{ url := "https://t.com", match_type := "fuzzy" }]⟩
        "https://t.com/x" "https://t.com"
      = URLManager.match_url (fun _ _ => none)
        (URLManager.set_contains ⟨[{ url := "https://t.com", match_type := "fuzzy" }]⟩
          "https://t.com")
        "https://t.com/x" "https://t.com" :=
  c7_unknown_policy_is_contains (fun _ _ => none)
    ⟨[{ url := "https://t.com", match_type := "fuzzy" }]⟩
    "https://t.com/x" "https://t.com"
    { url := "https://t.com", match_type := "fuzzy" }
    (by decide) (by decide) (by decide) (by decide) (by decide)

/-- C1 counterexample: with the entry `{url := "example.com",
match_type := "domain"}` in the registry, `match_url` on the found link
`http://www.example.com/page?x=1` returns `false`, because the parsed
hosts `www.example.com` and `example.com` are compared verbatim; moreover
`_validate_url` rejects `example.com` (no scheme, no regex character), so
the entry is not even loadable through the constructors. -/
theorem c1_counterexample :
    URLManager.match_url (fun _ _ => none)
        ⟨[{ url := "example.com", match_type := "domain" }]⟩
        "http://www.example.com/page?x=1" "example.com" = false
    ∧ URLManager.validate_url (fun _ => true) "example.com" = false := by
  decide

/-- C1 (amended): under the `domain` policy the two normalized URLs' parsed
hosts are compared verbatim, so `http://www.example.com/page?x=1` (host
`www.example.com`) does not match target `example.com` (host
`example.com`), while a found URL whose host is exactly `example.com`
does match. -/
theorem c1_domain_policy_verbatim_hosts :
    URLManager.match_url (fun _ _ => none)
        ⟨[{ url := "example.com", match_type := "domain" }]⟩
        "http://example.com/page?x=1" "example.com" = true
    ∧ urlparse_netloc (URLManager.normalize_url "http://www.example.com/page?x=1")
        = "www.example.com"
    ∧ urlparse_netloc (URLManager.normalize_url "example.com") = "example.com"
    ∧ "www.example.com" ≠ "example.com" := by
  decide

/-- C3: the page-scanning loop of `find_and_click_target_url` performs at
most `max_pages` page scans for every environment, matcher and bound (the
loop is the bounded `for page in range(max_pages)`, embedded as a total
structural recursion, so it always terminates), and in the concrete
scenario `max_pages = 3`, no matching link on any page and a next-page
control always present, it ends exhausted after exactly 3 scans with
`(False, 0)`. -/
theorem c3_pagination_bounded :
    (∀ (env : Nat → Option ResultPage) (matcher : String → Bool) (N : Nat),
      (find_and_click_target_url env matcher N).2 ≤ N)
    ∧ find_and_click_target_url (fun _ => some ⟨["https://other.com/a"], true⟩)
        (fun href => URLManager.match_url (fun _ _ => none)
          ⟨[{ url := "https://target.com" }]⟩ href "https://target.com") 3
      = ((false, 0), 3) := by
  constructor
  · intro env matcher N
    simpa using find_and_click_loop_scans_le env matcher N N 0 0
  · decide

/-- C10: `execute_search_task` returns `success = True` exactly when
`page_found >= 1`, and `find_and_click_target_url` only ever returns a
pair `(True, p)` with `p >= 1` or `(False, 0)`. -/
theorem c10_success_iff_page_found :
    (∀ (re_search : String → String → Option Bool) (m : URLManager)
        (env : Nat → Option ResultPage) (search_ok : Bool)
        (keyword target_url : String) (N : Nat),
      (execute_search_task re_search m env search_ok keyword target_url N).success = true
        ↔ 1 ≤ (execute_search_task re_search m env search_ok keyword target_url N).page_found)
    ∧ (∀ (env : Nat → Option ResultPage) (matcher : String → Bool) (N : Nat),
      ((find_and_click_target_url env matcher N).1.1 = true
        ∧ 1 ≤ (find_and_click_target_url env matcher N).1.2)
      ∨ (find_and_click_target_url env matcher N).1 = (false, 0)) := by
  have hshape : ∀ (env : Nat → Option ResultPage) (matcher : String → Bool) (N : Nat),
      ((find_and_click_target_url env matcher N).1.1 = true
        ∧ 1 ≤ (find_and_click_target_url env matcher N).1.2)
      ∨ (find_and_click_target_url env matcher N).1 = (false, 0) :=
    fun env matcher N => find_and_click_loop_shape env matcher N N 0 0
  refine ⟨fun re_search m env search_ok keyword target_url N => ?_, hshape⟩
  unfold execute_search_task
  by_cases hs : search_ok
  · simp only [hs, Bool.not_true, Bool.false_eq_true, if_false]
    rcases hshape env
        (fun href => URLManager.match_url re_search m href target_url) N with
      ⟨h1, h2⟩ | h
    · simp [h1, h2]
    · simp [h]
  · simp [hs]

/-- C8: in sequential mode, with browser acquisition succeeding and no
exception escaping a task, `run_automation_cycle` returns exactly one
outcome per (enabled keyword, enabled target URL) pair, the keyword-major
cross product in registry order: the result list has length
`#keywords * #targets`, its (keyword, target) projections are exactly
`cyclePairs`, and when the enabled lists are duplicate-free each distinct
pair occurs exactly once (so 2 keywords and 3 targets give exactly 6
outcomes, each pair once). -/
theorem c8_sequential_cross_product (km : KeywordManager) (um : URLManager)
    (task : String → String → TaskResult)
    (htask : ∀ k u, (task k u).keyword = k ∧ (task k u).target_url = u)
    (hk : (km.get_all_keywords).Nodup) (hu : (um.get_all_urls).Nodup) :
    (run_automation_cycle_seq km um task).length
      = (km.get_all_keywords).length * (um.get_all_urls).length
    ∧ (run_automation_cycle_seq km um task).map (fun r => (r.keyword, r.target_url))
      = cyclePairs km um
    ∧ (cyclePairs km um).Nodup
    ∧ ∀ k u, ((k, u) ∈ cyclePairs km um
      ↔ k ∈ km.get_all_keywords ∧ u ∈ um.get_all_urls) := by
  have hprod : cyclePairs km um = km.get_all_keywords ×ˢ um.get_all_urls := rfl
  have hmap : (run_automation_cycle_seq km um task).map
      (fun r => (r.keyword, r.target_url)) = cyclePairs km um := by
    unfold run_automation_cycle_seq cyclePairs
    rw [List.map_flatMap]
    congr 1
    funext kw
    rw [List.map_map]
    congr 1
    funext u
    simp [(htask kw u).1, (htask kw u).2]
  refine ⟨?_, hmap, ?_, ?_⟩
  · have := congrArg List.length hmap
    rw [List.length_map] at this
    rw [this, hprod, List.length_product]
  · rw [hprod]
    exact hk.product hu
  · intro k u
    rw [hprod]
    exact List.mem_product

/-- Witness for C8: 2 enabled keywords and 3 enabled target URLs give
exactly 6 outcomes. -/
theorem c8_witness :
    (run_automation_cycle_seq
      ⟨[{ keyword := "k1" }, { keyword := "k2" }]⟩
      ⟨[{ url := "https://u1.com" }, { url := "https://u2.com" },
        { url := "https://u3.com" }]⟩
      (fun k u => execute_search_task (fun _ _ => none) ⟨[]⟩ (fun _ => none)
        false k u 10)).length = 6 := by
  have h := c8_sequential_cross_product
    ⟨[{ keyword := "k1" }, { keyword := "k2" }]⟩
    ⟨[{ url := "https://u1.com" }, { url := "https://u2.com" },
      { url := "https://u3.com" }]⟩
    (fun k u => execute_search_task (fun _ _ => none) ⟨[]⟩ (fun _ => none)
      false k u 10)
    (fun k u => ⟨rfl, rfl⟩) (by decide) (by decide)
  rw [h.1]
  rfl

theorem update_keyword_stats_total (st : KeywordStats) (r : SearchResult) :
    (update_keyword_stats st r).total_searches = st.total_searches + 1 := by
  unfold update_keyword_stats
  by_cases hs : r.success <;> by_cases hp : (0 : Int) < r.page_found <;>
    by_cases ha : st.average_page_position = 0 <;>
    by_cases he : st.average_execution_time = 0 <;>
    simp [hs, hp, ha, he]

theorem update_keyword_stats_successful (st : KeywordStats) (r : SearchResult) :
    (update_keyword_stats st r).successful_searches
      = if r.success then st.successful_searches + 1 else st.successful_searches := by
  unfold update_keyword_stats
  by_cases hs : r.success <;> by_cases hp : (0 : Int) < r.page_found <;>
    by_cases ha : st.average_page_position = 0 <;>
    by_cases he : st.average_execution_time = 0 <;>
    simp [hs, hp, ha, he]

theorem update_keyword_stats_failed (st : KeywordStats) (r : SearchResult) :
    (update_keyword_stats st r).failed_searches
      = if r.success then st.failed_searches else st.failed_searches + 1 := by
  unfold update_keyword_stats
  by_cases hs : r.success <;> by_cases hp : (0 : Int) < r.page_found <;>
    by_cases ha : st.average_page_position = 0 <;>
    by_cases he : st.average_execution_time = 0 <;>
    simp [hs, hp, ha, he]

theorem update_keyword_stats_avg_pos (st : KeywordStats) (r : SearchResult) :
    (update_keyword_stats st r).average_page_position
      = if r.success ∧ 0 < r.page_found then
          (if st.average_page_position = 0 then (r.page_found : ℚ)
           else (st.average_page_position * (((st.successful_searches + 1 : ℕ) : ℚ) - 1)
              + (r.page_found : ℚ)) / ((st.successful_searches + 1 : ℕ) : ℚ))
        else st.average_page_position := by
  unfold update_keyword_stats
  by_cases hs : r.success <;> by_cases hp : (0 : Int) < r.page_found <;>
    by_cases ha : st.average_page_position = 0 <;>
    by_cases he : st.average_execution_time = 0 <;>
    simp [hs, hp, ha, he]

theorem update_keyword_stats_avg_exec (st : KeywordStats) (r : SearchResult) :
    (update_keyword_stats st r).average_execution_time
      = if st.average_execution_time = 0 then r.execution_time
        else (st.average_execution_time * (((st.total_searches + 1 : ℕ) : ℚ) - 1)
            + r.execution_time) / ((st.total_searches + 1 : ℕ) : ℚ) := by
  unfold update_keyword_stats
  by_cases hs : r.success <;> by_cases hp : (0 : Int) < r.page_found <;>
    by_cases ha : st.average_page_position = 0 <;>
    by_cases he : st.average_execution_time = 0 <;>
    simp [hs, hp, ha, he]

theorem update_url_stats_total (st : URLStats) (r : SearchResult) :
    (update_url_stats st r).total_clicks = st.total_clicks + 1 := by
  unfold update_url_stats
  by_cases hs : r.success <;> by_cases hp : (0 : Int) < r.page_found <;>
    by_cases ha : st.average_page_position = 0 <;>
    simp [hs, hp, ha]

theorem update_url_stats_successful (st : URLStats) (r : SearchResult) :
    (update_url_stats st r).successful_clicks
      = if r.success then st.successful_clicks + 1 else st.successful_clicks := by
  unfold update_url_stats
  by_cases hs : r.success <;> by_cases hp : (0 : Int) < r.page_found <;>
    by_cases ha : st.average_page_position = 0 <;>
    simp [hs, hp, ha]

theorem update_url_stats_failed (st : URLStats) (r : SearchResult) :
    (update_url_stats st r).failed_clicks
      = if r.success then st.failed_clicks else st.failed_clicks + 1 := by
  unfold update_url_stats
  by_cases hs : r.success <;> by_cases hp : (0 : Int) < r.page_found <;>
    by_cases ha : st.average_page_position = 0 <;>
    simp [hs, hp, ha]

theorem update_url_stats_avg_pos (st : URLStats) (r : SearchResult) :
    (update_url_stats st r).average_page_position
      = if r.success ∧ 0 < r.page_found then
          (if st.average_page_position = 0 then (r.page_found : ℚ)
           else (st.average_page_position * (((st.successful_clicks + 1 : ℕ) : ℚ) - 1)
              + (r.page_found : ℚ)) / ((st.successful_clicks + 1 : ℕ) : ℚ))
        else st.average_page_position := by
  unfold update_url_stats
  by_cases hs : r.success <;> by_cases hp : (0 : Int) < r.page_found <;>
    by_cases ha : st.average_page_position = 0 <;>
    simp [hs, hp, ha]

theorem filter_append_one (log : List SearchResult) (r : SearchResult)
    (p : SearchResult → Bool) :
    (log ++ [r]).filter p = log.filter p ++ (if p r then [r] else []) := by
  rw [List.filter_append]
  congr 1
  rw [List.filter_cons, List.filter_nil]

theorem genPosInv_step {σ : Type} (getCnt : σ → Nat) (getAvg : σ → ℚ)
    (keyOf : SearchResult → String) (upd : σ → SearchResult → σ) (init : σ)
    (hcnt : ∀ st r, getCnt (upd st r) = if r.success then getCnt st + 1 else getCnt st)
    (havg : ∀ st r, getAvg (upd st r)
      = if r.success ∧ 0 < r.page_found then
          (if getAvg st = 0 then (r.page_found : ℚ)
           else (getAvg st * (((getCnt st + 1 : ℕ) : ℚ) - 1) + (r.page_found : ℚ))
              / ((getCnt st + 1 : ℕ) : ℚ))
        else getAvg st)
    (hinit_cnt : getCnt init = 0) (hinit_avg : getAvg init = 0)
    (l : List (String × σ)) (log : List SearchResult) (k : String) (r : SearchResult)
    (hr : keyOf r = k → r.success = true → 1 ≤ r.page_found)
    (h : genPosInv getCnt getAvg keyOf l log k) :
    genPosInv getCnt getAvg keyOf
      (alUpdate l (keyOf r) init (fun s => upd s r)) (log ++ [r]) k := by
  obtain ⟨h0, h1⟩ := h
  unfold genPosInv at *
  by_cases hk : keyOf r = k
  · subst hk
    rw [filter_append_one]
    constructor
    · intro hnone
      rw [alFind_alUpdate_self] at hnone
      cases hnone
    · intro st hst
      rw [alFind_alUpdate_self] at hst
      have hst' : upd ((alFind l (keyOf r)).getD init) r = st := Option.some_inj.mp hst
      subst hst'
      cases hfind : alFind l (keyOf r) with
      | none =>
        have hL : log.filter (fun x => keyOf x == keyOf r && x.success) = [] := h0 hfind
        rw [hL]
        cases hs : r.success with
        | false =>
          have hpr : (if (keyOf r == keyOf r && false) = true then [r] else [])
              = ([] : List SearchResult) := by simp
          rw [hpr]
          simp only [Option.getD_none, List.nil_append, List.length_nil]
          refine ⟨?_, ?_, ?_⟩
          · rw [hcnt]; simp [hs, hinit_cnt]
          · rw [havg]; simp [hs, hinit_avg]
          · simp
        | true =>
          have hpf : 1 ≤ r.page_found := hr rfl hs
          have hpf0 : 0 < r.page_found := by omega
          have hpr : (if (keyOf r == keyOf r && true) = true then [r] else []) = [r] := by
            simp
          rw [hpr]
          simp only [Option.getD_none, List.nil_append]
          refine ⟨?_, ?_, ?_⟩
          · rw [hcnt]; simp [hs, hinit_cnt]
          · rw [havg]
            simp [hs, hpf0, hinit_avg]
          · simpa using (by exact_mod_cast hpf : (1 : ℚ) ≤ (r.page_found : ℚ))
      | some st0 =>
        obtain ⟨hc1, hc2, hc3⟩ := h1 st0 hfind
        simp only [Option.getD_some]
        cases hs : r.success with
        | false =>
          have hpr : (if (keyOf r == keyOf r && false) = true then [r] else [])
              = ([] : List SearchResult) := by simp
          rw [hpr]
          simp only [List.append_nil]
          refine ⟨?_, ?_, ?_⟩
          · rw [hcnt]; simp [hs, hc1]
          · rw [havg]; simp [hs, hc2]
          · exact hc3
        | true =>
          have hpf : 1 ≤ r.page_found := hr rfl hs
          have hpf0 : 0 < r.page_found := by omega
          have hpfq : (1 : ℚ) ≤ (r.page_found : ℚ) := by exact_mod_cast hpf
          have hpr : (if (keyOf r == keyOf r && true) = true then [r] else []) = [r] := by
            simp
          rw [hpr]
          rw [List.length_append, List.map_append, List.sum_append]
          simp only [List.length_cons, List.length_nil, List.map_cons, List.map_nil,
            List.sum_cons, List.sum_nil]
          refine ⟨?_, ?_, ?_⟩
          · rw [hcnt]; simp [hs, hc1]
          · rw [havg]
            simp only [hs, hpf0, true_and, if_pos]
            rcases Nat.eq_zero_or_pos
                (log.filter (fun x => keyOf x == keyOf r && x.success)).length with hn | hn
            · have hLnil : log.filter (fun x => keyOf x == keyOf r && x.success) = [] :=
                List.length_eq_zero.mp hn
              have hz : getAvg st0 = 0 := by
                rw [hc2, hLnil]; simp
              rw [if_pos hz, hLnil]
              simp
            · have hcast : (0 : ℚ) <
                  ((log.filter (fun x => keyOf x == keyOf r && x.success)).length : ℚ) := by
                exact_mod_cast hn
              have hone : (1 : ℚ) ≤ getAvg st0 := by
                rw [hc2]
                rw [le_div_iff₀ hcast]
                simpa using hc3
              have hz : getAvg st0 ≠ 0 := by linarith
              rw [if_neg hz, hc1, hc2]
              have hnz : ((log.filter (fun x => keyOf x == keyOf r && x.success)).length : ℚ)
                  ≠ 0 := ne_of_gt hcast
              push_cast
              rw [add_sub_cancel_right, div_mul_cancel₀ _ hnz]
              ring_nf
          · push_cast
            have := hc3
            linarith
  · have hne : k ≠ keyOf r := fun hc => hk hc.symm
    have hfind : alFind (alUpdate l (keyOf r) init (fun s => upd s r)) k = alFind l k :=
      alFind_alUpdate_ne l (keyOf r) k init _ hne
    have hpr : (keyOf r == k && r.success) = false := by simp [hk]
    rw [filter_append_one, hpr]
    simp only [if_neg, List.append_nil, Bool.false_eq_true]
    constructor
    · intro hnone
      rw [hfind] at hnone
      simpa using h0 hnone
    · intro st hst
      rw [hfind] at hst
      simpa using h1 st hst

theorem posInvK_foldl (k : String) : ∀ (rs : List SearchResult) (a : SearchAnalyzer),
    (∀ r ∈ rs, r.keyword = k → r.success = true → 1 ≤ r.page_found) →
    genPosInv (fun st => st.successful_searches) (fun st => st.average_page_position)
      (fun r => r.keyword) a.keyword_stats a.search_results k →
    genPosInv (fun st => st.successful_searches) (fun st => st.average_page_position)
      (fun r => r.keyword)
      (rs.foldl SearchAnalyzer.record_search_result a).keyword_stats
      (rs.foldl SearchAnalyzer.record_search_result a).search_results k := by
  intro rs
  induction rs with
  | nil => intro a _ ha; exact ha
  | cons hd tl ih =>
    intro a h ha
    simp only [List.foldl_cons]
    refine ih _ (fun r hr hk hs => h r (List.mem_cons_of_mem _ hr) hk hs) ?_
    exact genPosInv_step (fun st : KeywordStats => st.successful_searches)
      (fun st => st.average_page_position) (fun r => r.keyword)
      (fun st r => update_keyword_stats st r) { keyword := hd.keyword }
      update_keyword_stats_successful update_keyword_stats_avg_pos
      rfl rfl a.keyword_stats a.search_results k hd
      (h hd (List.mem_cons_self _ _)) ha

theorem posInvU_foldl (u : String) : ∀ (rs : List SearchResult) (a : SearchAnalyzer),
    (∀ r ∈ rs, r.target_url = u → r.success = true → 1 ≤ r.page_found) →
    genPosInv (fun st => st.successful_clicks) (fun st => st.average_page_position)
      (fun r => r.target_url) a.url_stats a.search_results u →
    genPosInv (fun st => st.successful_clicks) (fun st => st.average_page_position)
      (fun r => r.target_url)
      (rs.foldl SearchAnalyzer.record_search_result a).url_stats
      (rs.foldl SearchAnalyzer.record_search_result a).search_results u := by
  intro rs
  induction rs with
  | nil => intro a _ ha; exact ha
  | cons hd tl ih =>
    intro a h ha
    simp only [List.foldl_cons]
    refine ih _ (fun r hr hk hs => h r (List.mem_cons_of_mem _ hr) hk hs) ?_
    exact genPosInv_step (fun st : URLStats => st.successful_clicks)
      (fun st => st.average_page_position) (fun r => r.target_url)
      (fun st r => update_url_stats st r) { url := hd.target_url }
      update_url_stats_successful update_url_stats_avg_pos
      rfl rfl a.url_stats a.search_results u hd
      (h hd (List.mem_cons_self _ _)) ha

theorem runRecords_log (rs : List SearchResult) :
    (runRecords rs).search_results = rs := by
  unfold runRecords
  have : ∀ (rs : List SearchResult) (a : SearchAnalyzer),
      (rs.foldl SearchAnalyzer.record_search_result a).search_results
        = a.search_results ++ rs := by
    intro rs
    induction rs with
    | nil => intro a; simp
    | cons hd tl ih =>
      intro a
      simp only [List.foldl_cons]
      rw [ih]
      simp [SearchAnalyzer.record_search_result]
  rw [this]
  simp [SearchAnalyzer.init]

theorem posInvK_runRecords (rs : List SearchResult) (k : String)
    (h : ∀ r ∈ rs, r.keyword = k → r.success = true → 1 ≤ r.page_found) :
    genPosInv (fun st => st.successful_searches) (fun st => st.average_page_position)
      (fun r => r.keyword) (runRecords rs).keyword_stats rs k := by
  have := posInvK_foldl k rs SearchAnalyzer.init h
    (by exact ⟨fun _ => rfl, fun st hst => by cases hst⟩)
  rw [show (rs.foldl SearchAnalyzer.record_search_result SearchAnalyzer.init).search_results
      = rs from runRecords_log rs] at this
  exact this

theorem posInvU_runRecords (rs : List SearchResult) (u : String)
    (h : ∀ r ∈ rs, r.target_url = u → r.success = true → 1 ≤ r.page_found) :
    genPosInv (fun st => st.successful_clicks) (fun st => st.average_page_position)
      (fun r => r.target_url) (runRecords rs).url_stats rs u := by
  have := posInvU_foldl u rs SearchAnalyzer.init h
    (by exact ⟨fun _ => rfl, fun st hst => by cases hst⟩)
  rw [show (rs.foldl SearchAnalyzer.record_search_result SearchAnalyzer.init).search_results
      = rs from runRecords_log rs] at this
  exact this

theorem avgPagePositionOf_eq_mean (rs : List SearchResult) (k : String)
    (hk : ∀ r ∈ rs, r.keyword = k → r.success = true → 1 ≤ r.page_found)
    (hne : successesFor rs k ≠ []) :
    avgPagePositionOf (runRecords rs) k
      = some (((successesFor rs k).map (fun r => (r.page_found : ℚ))).sum
          / ((successesFor rs k).length : ℚ)) := by
  obtain ⟨h0, h1⟩ := posInvK_runRecords rs k hk
  cases hfind : alFind (runRecords rs).keyword_stats k with
  | none => exact absurd (h0 hfind) hne
  | some st =>
    unfold avgPagePositionOf
    rw [hfind]
    simpa using (h1 st hfind).2.1

theorem urlAvgPagePositionOf_eq_mean (rs : List SearchResult) (u : String)
    (hu : ∀ r ∈ rs, r.target_url = u → r.success = true → 1 ≤ r.page_found)
    (hne : urlSuccessesFor rs u ≠ []) :
    urlAvgPagePositionOf (runRecords rs) u
      = some (((urlSuccessesFor rs u).map (fun r => (r.page_found : ℚ))).sum
          / ((urlSuccessesFor rs u).length : ℚ)) := by
  obtain ⟨h0, h1⟩ := posInvU_runRecords rs u hu
  cases hfind : alFind (runRecords rs).url_stats u with
  | none => exact absurd (h0 hfind) hne
  | some st =>
    unfold urlAvgPagePositionOf
    rw [hfind]
    simpa using (h1 st hfind).2.1

/-- C2: for every keyword key (and likewise every target-URL key), after
recording any sequence of outcomes whose successful entries for that key
all carry a page position of at least 1, the key's
`average_page_position` is the arithmetic mean of those positions, and
recording any permutation of the same outcomes yields the same mean —
arrival order does not matter. -/
theorem c2_avg_page_position_is_mean (rs : List SearchResult) (k u : String)
    (hk : ∀ r ∈ rs, r.keyword = k → r.success = true → 1 ≤ r.page_found)
    (hu : ∀ r ∈ rs, r.target_url = u → r.success = true → 1 ≤ r.page_found) :
    (successesFor rs k ≠ [] →
      avgPagePositionOf (runRecords rs) k
        = some (((successesFor rs k).map (fun r => (r.page_found : ℚ))).sum
            / ((successesFor rs k).length : ℚ)))
    ∧ (urlSuccessesFor rs u ≠ [] →
      urlAvgPagePositionOf (runRecords rs) u
        = some (((urlSuccessesFor rs u).map (fun r => (r.page_found : ℚ))).sum
            / ((urlSuccessesFor rs u).length : ℚ)))
    ∧ (successesFor rs k ≠ [] → ∀ rs', rs.Perm rs' →
      avgPagePositionOf (runRecords rs') k
        = some (((successesFor rs k).map (fun r => (r.page_found : ℚ))).sum
            / ((successesFor rs k).length : ℚ)))
    ∧ (urlSuccessesFor rs u ≠ [] → ∀ rs', rs.Perm rs' →
      urlAvgPagePositionOf (runRecords rs') u
        = some (((urlSuccessesFor rs u).map (fun r => (r.page_found : ℚ))).sum
            / ((urlSuccessesFor rs u).length : ℚ))) := by
  refine ⟨fun hne => avgPagePositionOf_eq_mean rs k hk hne,
    fun hne => urlAvgPagePositionOf_eq_mean rs u hu hne, ?_, ?_⟩
  · intro hne rs' hperm
    have hfil : (successesFor rs k).Perm (successesFor rs' k) :=
      hperm.filter _
    have hk' : ∀ r ∈ rs', r.keyword = k → r.success = true → 1 ≤ r.page_found :=
      fun r hr => hk r (hperm.symm.subset hr)
    have hne' : successesFor rs' k ≠ [] := by
      intro hnil
      apply hne
      have := hfil.length_eq
      rw [hnil] at this
      exact List.eq_nil_of_length_eq_zero this
    rw [avgPagePositionOf_eq_mean rs' k hk' hne']
    rw [(hfil.map (fun r => (r.page_found : ℚ))).sum_eq, hfil.length_eq]
  · intro hne rs' hperm
    have hfil : (urlSuccessesFor rs u).Perm (urlSuccessesFor rs' u) :=
      hperm.filter _
    have hu' : ∀ r ∈ rs', r.target_url = u → r.success = true → 1 ≤ r.page_found :=
      fun r hr => hu r (hperm.symm.subset hr)
    have hne' : urlSuccessesFor rs' u ≠ [] := by
      intro hnil
      apply hne
      have := hfil.length_eq
      rw [hnil] at this
      exact List.eq_nil_of_length_eq_zero this
    rw [urlAvgPagePositionOf_eq_mean rs' u hu' hne']
    rw [(hfil.map (fun r => (r.page_found : ℚ))).sum_eq, hfil.length_eq]

/-- Witness for C2: the spec scenario — successes on pages 2 and 4 for
keyword `a` (target `https://u.com`) give mean 3, in either order. -/
theorem c2_witness :
    avgPagePositionOf (runRecords
      [{ keyword := "a", target_url := "https://u.com", success := true,
         page_found := 2, execution_time := 1, timestamp := 0 },
       { keyword := "a", target_url := "https://u.com", success := true,
         page_found := 4, execution_time := 1, timestamp := 1 }]) "a" = some 3 := by
  have h := (c2_avg_page_position_is_mean
    [{ keyword := "a", target_url := "https://u.com", success := true,
       page_found := 2, execution_time := 1, timestamp := 0 },
     { keyword := "a", target_url := "https://u.com", success := true,
       page_found := 4, execution_time := 1, timestamp := 1 }] "a" "https://u.com"
    (by decide) (by decide)).1 (by decide)
  rw [h]
  norm_num [successesFor]

theorem execInvK_step (a : SearchAnalyzer) (k : String) (r : SearchResult)
    (hr : r.keyword = k → 0 < r.execution_time)
    (h : execInvK a k) : execInvK (a.record_search_result r) k := by
  obtain ⟨h0, h1⟩ := h
  unfold execInvK entriesFor at *
  rw [show (a.record_search_result r).keyword_stats
      = alUpdate a.keyword_stats r.keyword { keyword := r.keyword }
        (fun s => update_keyword_stats s r) from rfl,
    show (a.record_search_result r).search_results = a.search_results ++ [r] from rfl]
  by_cases hk : r.keyword = k
  · subst hk
    rw [filter_append_one]
    constructor
    · intro hnone
      rw [alFind_alUpdate_self] at hnone
      cases hnone
    · intro st hst
      rw [alFind_alUpdate_self] at hst
      have hst' : update_keyword_stats ((alFind a.keyword_stats r.keyword).getD
          { keyword := r.keyword }) r = st := Option.some_inj.mp hst
      subst hst'
      have ht : 0 < r.execution_time := hr rfl
      have hpr : (if (r.keyword == r.keyword) = true then [r] else []) = [r] := by simp
      rw [hpr]
      cases hfind : alFind a.keyword_stats r.keyword with
      | none =>
        have hL : a.search_results.filter (fun x => x.keyword == r.keyword) = [] :=
          h0 hfind
        rw [hL]
        simp only [Option.getD_none, List.nil_append]
        refine ⟨?_, ?_, ?_⟩
        · rw [update_keyword_stats_total]; simp
        · rw [update_keyword_stats_avg_exec]
          simp
        · right
          simpa using ht
      | some st0 =>
        obtain ⟨hc1, hc2, hc3⟩ := h1 st0 hfind
        simp only [Option.getD_some]
        rw [List.length_append, List.map_append, List.sum_append]
        simp only [List.length_cons, List.length_nil, List.map_cons, List.map_nil,
          List.sum_cons, List.sum_nil]
        refine ⟨?_, ?_, ?_⟩
        · rw [update_keyword_stats_total]; simp [hc1]
        · rw [update_keyword_stats_avg_exec]
          rcases hc3 with hLnil | hSpos
          · have hz : st0.average_execution_time = 0 := by
              rw [hc2, hLnil]; simp
            rw [if_pos hz, hLnil]
            simp
          · have hLne : a.search_results.filter (fun x => x.keyword == r.keyword) ≠ [] := by
              intro hnil
              rw [hnil] at hSpos
              simp at hSpos
            have hn : 0 < (a.search_results.filter (fun x => x.keyword == r.keyword)).length :=
              List.length_pos.mpr hLne
            have hcast : (0 : ℚ)
                < ((a.search_results.filter (fun x => x.keyword == r.keyword)).length : ℚ) := by
              exact_mod_cast hn
            have hz : st0.average_execution_time ≠ 0 := by
              have : 0 < st0.average_execution_time := by
                rw [hc2]
                exact div_pos hSpos hcast
              linarith
            rw [if_neg hz, hc1, hc2]
            have hnz : ((a.search_results.filter (fun x => x.keyword == r.keyword)).length : ℚ)
                ≠ 0 := ne_of_gt hcast
            push_cast
            rw [add_sub_cancel_right, div_mul_cancel₀ _ hnz]
            ring_nf
        · right
          rcases hc3 with hLnil | hSpos
          · rw [hLnil]; simpa using ht
          · linarith
  · have hne : k ≠ r.keyword := fun hc => hk hc.symm
    have hfind : alFind (alUpdate a.keyword_stats r.keyword { keyword := r.keyword }
        (fun s => update_keyword_stats s r)) k = alFind a.keyword_stats k :=
      alFind_alUpdate_ne a.keyword_stats r.keyword k _ _ hne
    have hpr : (if (r.keyword == k) = true then [r] else []) = ([] : List SearchResult) := by
      simp [hk]
    rw [filter_append_one, hpr, List.append_nil, hfind]
    exact ⟨h0, h1⟩

theorem execInvK_runRecords (rs : List SearchResult) (k : String)
    (h : ∀ r ∈ rs, r.keyword = k → 0 < r.execution_time) :
    execInvK (runRecords rs) k := by
  unfold runRecords
  have main : ∀ (rs : List SearchResult) (a : SearchAnalyzer),
      (∀ r ∈ rs, r.keyword = k → 0 < r.execution_time) →
      execInvK a k →
      execInvK (rs.foldl SearchAnalyzer.record_search_result a) k := by
    intro rs
    induction rs with
    | nil => intro a _ ha; exact ha
    | cons hd tl ih =>
      intro a hh ha
      simp only [List.foldl_cons]
      exact ih _ (fun r hr hk => hh r (List.mem_cons_of_mem _ hr) hk)
        (execInvK_step a k hd (hh hd (List.mem_cons_self _ _)) ha)
  exact main rs SearchAnalyzer.init h ⟨fun _ => rfl, fun st hst => by cases hst⟩

/-- C4 counterexample: recording two failures for keyword `a` with
execution times 0 and 6 leaves `average_execution_time = 6`, not the
arithmetic mean 3 of all outcomes — the zero-average initialization branch
discards the leading zero time. -/
theorem c4_counterexample :
    avgExecutionTimeOf (runRecords
      [{ keyword := "a", target_url := "https://u.com", success := false,
         page_found := 0, execution_time := 0, timestamp := 0 },
       { keyword := "a", target_url := "https://u.com", success := false,
         page_found := 0, execution_time := 6, timestamp := 1 }]) "a" = some 6
    ∧ ((0 : ℚ) + 6) / 2 = 3
    ∧ (6 : ℚ) ≠ 3 := by
  refine ⟨?_, by norm_num, by norm_num⟩
  norm_num [runRecords, SearchAnalyzer.init, SearchAnalyzer.record_search_result,
    update_keyword_stats, update_url_stats, alUpdate, alFind, avgExecutionTimeOf]

/-- C4 (amended): provided every recorded execution time for the key is
positive, after any sequence of `n` outcomes (successes and failures
alike) with times `t1..tn`, `average_execution_time` equals the arithmetic
mean of `t1..tn`, computed over the running count of all `n` outcomes; a
zero execution time can be silently discarded by the zero-average
initialization branch (see the counterexample). -/
theorem c4_avg_execution_time_is_mean (rs : List SearchResult) (k : String)
    (hpos : ∀ r ∈ rs, r.keyword = k → 0 < r.execution_time)
    (hne : entriesFor rs k ≠ []) :
    avgExecutionTimeOf (runRecords rs) k
      = some (((entriesFor rs k).map (fun r => r.execution_time)).sum
          / ((entriesFor rs k).length : ℚ)) := by
  obtain ⟨h0, h1⟩ := execInvK_runRecords rs k hpos
  rw [runRecords_log] at h0 h1
  cases hfind : alFind (runRecords rs).keyword_stats k with
  | none => exact absurd (h0 hfind) hne
  | some st =>
    unfold avgExecutionTimeOf
    rw [hfind]
    simpa using (h1 st hfind).2.1

/-- Witness for C4: times 2 and 4 for keyword `a` give mean 3. -/
theorem c4_witness :
    avgExecutionTimeOf (runRecords
      [{ keyword := "a", target_url := "https://u.com", success := false,
         page_found := 0, execution_time := 2, timestamp := 0 },
       { keyword := "a", target_url := "https://u.com", success := true,
         page_found := 1, execution_time := 4, timestamp := 1 }]) "a" = some 3 := by
  have h := c4_avg_execution_time_is_mean
    [{ keyword := "a", target_url := "https://u.com", success := false,
       page_found := 0, execution_time := 2, timestamp := 0 },
     { keyword := "a", target_url := "https://u.com", success := true,
       page_found := 1, execution_time := 4, timestamp := 1 }] "a"
    (by norm_num) (by decide)
  rw [h]
  norm_num [entriesFor]

theorem genCntInv_step {σ : Type} (getTot getSucc getFail : σ → Nat)
    (keyOf : SearchResult → String) (upd : σ → SearchResult → σ) (init : σ)
    (htot : ∀ st r, getTot (upd st r) = getTot st + 1)
    (hsucc : ∀ st r, getSucc (upd st r)
      = if r.success then getSucc st + 1 else getSucc st)
    (hfail : ∀ st r, getFail (upd st r)
      = if r.success then getFail st else getFail st + 1)
    (hinit_tot : getTot init = 0) (hinit_succ : getSucc init = 0)
    (hinit_fail : getFail init = 0)
    (l : List (String × σ)) (log : List SearchResult) (k : String) (r : SearchResult)
    (h : genCntInv getTot getSucc getFail keyOf l log k) :
    genCntInv getTot getSucc getFail keyOf
      (alUpdate l (keyOf r) init (fun s => upd s r)) (log ++ [r]) k := by
  obtain ⟨h0, h1⟩ := h
  unfold genCntInv at *
  rw [filter_append_one, filter_append_one]
  by_cases hk : keyOf r = k
  · subst hk
    have hpe : (if (keyOf r == keyOf r) = true then [r] else []) = [r] := by simp
    rw [hpe]
    constructor
    · intro hnone
      rw [alFind_alUpdate_self] at hnone
      cases hnone
    · intro st hst
      rw [alFind_alUpdate_self] at hst
      have hst' : upd ((alFind l (keyOf r)).getD init) r = st := Option.some_inj.mp hst
      subst hst'
      cases hfind : alFind l (keyOf r) with
      | none =>
        have hE : log.filter (fun x => keyOf x == keyOf r) = [] := h0 hfind
        have hS : log.filter (fun x => keyOf x == keyOf r && x.success) = [] := by
          rw [List.filter_eq_nil_iff] at hE ⊢
          intro a ha
          simp only [Bool.and_eq_true, not_and]
          intro hcontra
          exact absurd hcontra (hE a ha)
        rw [hE, hS]
        simp only [Option.getD_none, List.nil_append]
        cases hs : r.success with
        | true =>
          have hps : (if (keyOf r == keyOf r && true) = true then [r] else []) = [r] := by
            simp
          rw [hps]
          refine ⟨?_, ?_, ?_⟩
          · rw [htot]; simp [hinit_tot]
          · rw [hsucc]; simp [hs, hinit_succ]
          · rw [htot, hsucc, hfail]; simp [hs, hinit_tot, hinit_succ, hinit_fail]
        | false =>
          have hps : (if (keyOf r == keyOf r && false) = true then [r] else [])
              = ([] : List SearchResult) := by simp
          rw [hps]
          refine ⟨?_, ?_, ?_⟩
          · rw [htot]; simp [hinit_tot]
          · rw [hsucc]; simp [hs, hinit_succ]
          · rw [htot, hsucc, hfail]; simp [hs, hinit_tot, hinit_succ, hinit_fail]
      | some st0 =>
        obtain ⟨hc1, hc2, hc3⟩ := h1 st0 hfind
        simp only [Option.getD_some]
        cases hs : r.success with
        | true =>
          have hps : (if (keyOf r == keyOf r && true) = true then [r] else []) = [r] := by
            simp
          rw [hps]
          refine ⟨?_, ?_, ?_⟩
          · rw [htot]; simp [hc1]
          · rw [hsucc]; simp [hs, hc2]
          · rw [htot, hsucc, hfail]; simp [hs]; omega
        | false =>
          have hps : (if (keyOf r == keyOf r && false) = true then [r] else [])
              = ([] : List SearchResult) := by simp
          rw [hps]
          refine ⟨?_, ?_, ?_⟩
          · rw [htot]; simp [hc1]
          · rw [hsucc]; simp [hs, hc2]
          · rw [htot, hsucc, hfail]; simp [hs]; omega
  · have hne : k ≠ keyOf r := fun hc => hk hc.symm
    have hfind : alFind (alUpdate l (keyOf r) init (fun s => upd s r)) k = alFind l k :=
      alFind_alUpdate_ne l (keyOf r) k init _ hne
    have hpe : (if (keyOf r == k) = true then [r] else []) = ([] : List SearchResult) := by
      simp [hk]
    have hps : (if (keyOf r == k && r.success) = true then [r] else [])
        = ([] : List SearchResult) := by simp [hk]
    rw [hpe, hps, List.append_nil, List.append_nil, hfind]
    exact ⟨h0, h1⟩

theorem cntInvK_runRecords (rs : List SearchResult) (k : String) :
    genCntInv (fun st => st.total_searches) (fun st => st.successful_searches)
      (fun st => st.failed_searches) (fun r => r.keyword)
      (runRecords rs).keyword_stats rs k := by
  have main : ∀ (rs : List SearchResult) (a : SearchAnalyzer),
      genCntInv (fun st => st.total_searches) (fun st => st.successful_searches)
        (fun st => st.failed_searches) (fun r => r.keyword)
        a.keyword_stats a.search_results k →
      genCntInv (fun st => st.total_searches) (fun st => st.successful_searches)
        (fun st => st.failed_searches) (fun r => r.keyword)
        (rs.foldl SearchAnalyzer.record_search_result a).keyword_stats
        (rs.foldl SearchAnalyzer.record_search_result a).search_results k := by
    intro rs
    induction rs with
    | nil => intro a ha; exact ha
    | cons hd tl ih =>
      intro a ha
      simp only [List.foldl_cons]
      exact ih _ (genCntInv_step (fun st : KeywordStats => st.total_searches)
        (fun st => st.successful_searches) (fun st => st.failed_searches)
        (fun r => r.keyword) (fun st r => update_keyword_stats st r)
        { keyword := hd.keyword }
        update_keyword_stats_total update_keyword_stats_successful
        update_keyword_stats_failed rfl rfl rfl
        a.keyword_stats a.search_results k hd ha)
  have := main rs SearchAnalyzer.init ⟨fun _ => rfl, fun st hst => by cases hst⟩
  rw [show (rs.foldl SearchAnalyzer.record_search_result SearchAnalyzer.init).search_results
      = rs from runRecords_log rs] at this
  exact this

theorem cntInvU_runRecords (rs : List SearchResult) (u : String) :
    genCntInv (fun st => st.total_clicks) (fun st => st.successful_clicks)
      (fun st => st.failed_clicks) (fun r => r.target_url)
      (runRecords rs).url_stats rs u := by
  have main : ∀ (rs : List SearchResult) (a : SearchAnalyzer),
      genCntInv (fun st => st.total_clicks) (fun st => st.successful_clicks)
        (fun st => st.failed_clicks) (fun r => r.target_url)
        a.url_stats a.search_results u →
      genCntInv (fun st => st.total_clicks) (fun st => st.successful_clicks)
        (fun st => st.failed_clicks) (fun r => r.target_url)
        (rs.foldl SearchAnalyzer.record_search_result a).url_stats
        (rs.foldl SearchAnalyzer.record_search_result a).search_results u := by
    intro rs
    induction rs with
    | nil => intro a ha; exact ha
    | cons hd tl ih =>
      intro a ha
      simp only [List.foldl_cons]
      exact ih _ (genCntInv_step (fun st : URLStats => st.total_clicks)
        (fun st => st.successful_clicks) (fun st => st.failed_clicks)
        (fun r => r.target_url) (fun st r => update_url_stats st r)
        { url := hd.target_url }
        update_url_stats_total update_url_stats_successful
        update_url_stats_failed rfl rfl rfl
        a.url_stats a.search_results u hd ha)
  have := main rs SearchAnalyzer.init ⟨fun _ => rfl, fun st hst => by cases hst⟩
  rw [show (rs.foldl SearchAnalyzer.record_search_result SearchAnalyzer.init).search_results
      = rs from runRecords_log rs] at this
  exact this

theorem alUpdate_total_sum (l : List (String × KeywordStats)) (k' : String)
    (init : KeywordStats) (f : KeywordStats → KeywordStats)
    (hf : ∀ v, (f v).total_searches = v.total_searches + 1)
    (hinit : init.total_searches = 0) :
    ((alUpdate l k' init f).map (fun p => p.2.total_searches)).sum
      = (l.map (fun p => p.2.total_searches)).sum + 1 := by
  induction l with
  | nil => simp [alUpdate, hf, hinit]
  | cons hd tl ih =>
    obtain ⟨k'', v⟩ := hd
    by_cases hkk : (k'' == k') = true
    · rw [show alUpdate ((k'', v) :: tl) k' init f = (k'', f v) :: tl from by
        simp [alUpdate, hkk]]
      simp only [List.map_cons, List.sum_cons, hf]
      omega
    · rw [show alUpdate ((k'', v) :: tl) k' init f = (k'', v) :: alUpdate tl k' init f
        from by simp [alUpdate, hkk]]
      simp only [List.map_cons, List.sum_cons]
      rw [ih]
      omega

theorem keywordTotalSum_runRecords (rs : List SearchResult) :
    keywordTotalSum (runRecords rs) = rs.length := by
  have main : ∀ (rs : List SearchResult) (a : SearchAnalyzer),
      keywordTotalSum (rs.foldl SearchAnalyzer.record_search_result a)
        = keywordTotalSum a + rs.length := by
    intro rs
    induction rs with
    | nil => intro a; simp
    | cons hd tl ih =>
      intro a
      simp only [List.foldl_cons, List.length_cons]
      rw [ih]
      have : keywordTotalSum (a.record_search_result hd) = keywordTotalSum a + 1 := by
        unfold keywordTotalSum
        exact alUpdate_total_sum a.keyword_stats hd.keyword { keyword := hd.keyword }
          (fun s => update_keyword_stats s hd)
          (fun v => update_keyword_stats_total v hd) rfl
      rw [this]
      omega
  rw [show runRecords rs = rs.foldl SearchAnalyzer.record_search_result SearchAnalyzer.init
    from rfl, main]
  simp [keywordTotalSum, SearchAnalyzer.init]

/-- C5: after any sequence of `record_search_result` calls, every keyword
key's counters satisfy `successful + failed = total` with `total` the
number of log entries for that key (and a key with no stats entry has no
log entries), likewise every target-URL key's click counters; the log
length equals the sum of `total_searches` over all keyword keys and equals
the number of record calls; and each `record_search_result` appends exactly
one entry, so the log length never decreases. -/
theorem c5_counters_match_log (rs : List SearchResult) :
    (∀ k, alFind (runRecords rs).keyword_stats k = none → entriesFor rs k = [])
    ∧ (∀ k st, alFind (runRecords rs).keyword_stats k = some st →
        st.successful_searches + st.failed_searches = st.total_searches
        ∧ st.total_searches = (entriesFor rs k).length
        ∧ st.successful_searches = (successesFor rs k).length)
    ∧ (∀ u, alFind (runRecords rs).url_stats u = none → urlEntriesFor rs u = [])
    ∧ (∀ u st, alFind (runRecords rs).url_stats u = some st →
        st.successful_clicks + st.failed_clicks = st.total_clicks
        ∧ st.total_clicks = (urlEntriesFor rs u).length
        ∧ st.successful_clicks = (urlSuccessesFor rs u).length)
    ∧ keywordTotalSum (runRecords rs) = (runRecords rs).search_results.length
    ∧ (runRecords rs).search_results = rs
    ∧ ∀ r : SearchResult,
        ((runRecords rs).record_search_result r).search_results.length
          = (runRecords rs).search_results.length + 1 := by
  refine ⟨?_, ?_, ?_, ?_, ?_, runRecords_log rs, ?_⟩
  · intro k hnone
    exact (cntInvK_runRecords rs k).1 hnone
  · intro k st hst
    obtain ⟨hc1, hc2, hc3⟩ := (cntInvK_runRecords rs k).2 st hst
    exact ⟨by simpa using hc3, hc1, hc2⟩
  · intro u hnone
    exact (cntInvU_runRecords rs u).1 hnone
  · intro u st hst
    obtain ⟨hc1, hc2, hc3⟩ := (cntInvU_runRecords rs u).2 st hst
    exact ⟨by simpa using hc3, hc1, hc2⟩
  · rw [keywordTotalSum_runRecords, runRecords_log]
  · intro r
    rw [show ((runRecords rs).record_search_result r).search_results
        = (runRecords rs).search_results ++ [r] from rfl]
    simp

/-- Witness for C5: one success for keyword `a` gives a stats entry with
`successful + failed = total = 1`, matching the single log entry. -/
theorem c5_witness :
    (1 : Nat) + 0 = 1
    ∧ (1 : Nat) = (entriesFor
        [{ keyword := "a", target_url := "https://u.com", success := true,
           page_found := 1, execution_time := 2, timestamp := 5 }] "a").length
    ∧ (1 : Nat) = (successesFor
        [{ keyword := "a", target_url := "https://u.com", success := true,
           page_found := 1, execution_time := 2, timestamp := 5 }] "a").length := by
  have h := (c5_counters_match_log
    [{ keyword := "a", target_url := "https://u.com", success := true,
       page_found := 1, execution_time := 2, timestamp := 5 }]).2.1 "a"
    { keyword := "a", total_searches := 1, successful_searches := 1,
      failed_searches := 0, average_page_position := 1,
      average_execution_time := 2, success_rate := 1, last_search_time := some 5 }
    (by norm_num [runRecords, SearchAnalyzer.init, SearchAnalyzer.record_search_result,
      update_keyword_stats, update_url_stats, alUpdate, alFind])
  exact h

theorem dropWhile_dropWhile (p : Char → Bool) (l : List Char) :
    List.dropWhile p (List.dropWhile p l) = List.dropWhile p l := by
  induction l with
  | nil => rfl
  | cons a tl ih =>
    by_cases ha : p a = true
    · rw [List.dropWhile_cons_of_pos ha]
      exact ih
    · rw [List.dropWhile_cons_of_neg (by simpa using ha),
        List.dropWhile_cons_of_neg (by simpa using ha)]

theorem rstripSlash_idem (s : String) :
    rstripSlash (rstripSlash s) = rstripSlash s := by
  unfold rstripSlash listRstrip
  congr 1
  show ((((s.toList.reverse.dropWhile _).reverse).asString.toList).reverse.dropWhile _).reverse
    = (s.toList.reverse.dropWhile _).reverse
  rw [show (((s.toList.reverse.dropWhile (fun c => c == '/')).reverse).asString).toList
      = (s.toList.reverse.dropWhile (fun c => c == '/')).reverse from rfl]
  rw [List.reverse_reverse, dropWhile_dropWhile]

theorem rstripSlash_ne_https (s : String) : rstripSlash s ≠ "https://" := by
  intro h
  have h2 := rstripSlash_idem s
  rw [h] at h2
  exact absurd h2 (by decide)

theorem rstripSlash_ne_http (s : String) : rstripSlash s ≠ "http://" := by
  intro h
  have h2 := rstripSlash_idem s
  rw [h] at h2
  exact absurd h2 (by decide)

theorem all_slash_of_rstrip_nil (s : String) (h : rstripSlash s = "") :
    ∀ c ∈ s.toList, c = '/' := by
  have hlist : listRstrip (fun c => c == '/') s.toList = [] := by
    have := congrArg String.toList h
    exact this
  unfold listRstrip at hlist
  rw [List.reverse_eq_nil_iff] at hlist
  rw [List.dropWhile_eq_nil_iff] at hlist
  intro c hc
  have := hlist c (List.mem_reverse.mpr hc)
  simpa using this

theorem scheme_nil_of_all_slash (s : String) (h : ∀ c ∈ s.toList, c = '/') :
    urlparse_scheme s = "" := by
  unfold urlparse_scheme splitScheme
  cases hl : s.toList with
  | nil => rfl
  | cons c tl =>
    have hc : c = '/' := h c (by rw [hl]; exact List.mem_cons_self _ _)
    subst hc
    cases hfi : (('/' : Char) :: tl).findIdx? (fun c => c == ':') with
    | none => rfl
    | some i =>
      simp
      rfl

theorem validate_rstrip_ne (re_compiles : String → Bool) (t : String)
    (hv : URLManager.validate_url re_compiles t = true) : rstripSlash t ≠ "" := by
  intro hnil
  have hall : ∀ c ∈ t.toList, c = '/' := all_slash_of_rstrip_nil t hnil
  unfold URLManager.validate_url at hv
  by_cases hspec : t.toList.any (fun c => regexSpecial.contains c) = true
  · obtain ⟨c, hc, hcs⟩ := List.any_eq_true.mp hspec
    rw [hall c hc] at hcs
    exact absurd hcs (by decide)
  · rw [if_neg hspec] at hv
    have hscheme : urlparse_scheme t = "" := scheme_nil_of_all_slash t hall
    rw [hscheme] at hv
    simp at hv

theorem normalize_url_cases (t : String) :
    (URLManager.normalize_url t = rstripSlash t
      ∧ ((rstripSlash t).toList = "http://".toList ++ ((rstripSlash t).toList.drop 7)
        ∨ (rstripSlash t).toList = "https://".toList ++ ((rstripSlash t).toList.drop 8)))
    ∨ URLManager.normalize_url t = "https://" ++ rstripSlash t := by
  unfold URLManager.normalize_url
  by_cases h : (strStartsWith (rstripSlash t) "http://"
      || strStartsWith (rstripSlash t) "https://") = true
  · left
    refine ⟨by simp [h], ?_⟩
    rcases Bool.or_eq_true_iff.mp h with h1 | h1
    · left
      have hpre : "http://".toList <+: (rstripSlash t).toList :=
        of_decide_eq_true h1
      obtain ⟨rest, hrest⟩ := hpre
      conv_lhs => rw [← hrest]
      rw [← hrest]
      simp
    · right
      have hpre : "https://".toList <+: (rstripSlash t).toList :=
        of_decide_eq_true h1
      obtain ⟨rest, hrest⟩ := hpre
      conv_lhs => rw [← hrest]
      rw [← hrest]
      simp
  · right
    simp [h]

theorem toList_eq_nil_iff_str (s : String) : s.toList = [] ↔ s = "" := by
  constructor
  · intro h
    apply String.ext
    exact h
  · intro h
    rw [h]
    rfl

theorem normalize_ne_https_of_validate (re_compiles : String → Bool) (t : String)
    (hv : URLManager.validate_url re_compiles t = true) :
    URLManager.normalize_url t ≠ "https://" := by
  rcases normalize_url_cases t with ⟨heq, _⟩ | heq
  · rw [heq]
    exact rstripSlash_ne_https t
  · rw [heq]
    intro hcontra
    have hlen := congrArg String.length hcontra
    rw [String.length_append] at hlen
    have h8 : ("https://" : String).length = 8 := by decide
    rw [h8] at hlen
    have hzero : (rstripSlash t).length = 0 := by omega
    have : (rstripSlash t).toList = [] := by
      have := congrArg List.length (rfl : (rstripSlash t).toList = (rstripSlash t).toList)
      exact List.length_eq_zero.mp (by
        show (rstripSlash t).toList.length = 0
        exact hzero)
    exact validate_rstrip_ne re_compiles t hv ((toList_eq_nil_iff_str _).mp this)

theorem not_contains_of_validate (re_compiles : String → Bool) (t : String)
    (hv : URLManager.validate_url re_compiles t = true) :
    strContainsSub "https://" (URLManager.normalize_url t) = false := by
  apply decide_eq_false
  intro hinf
  have hrne : rstripSlash t ≠ "" := validate_rstrip_ne re_compiles t hv
  have hrlen : 0 < (rstripSlash t).toList.length := by
    rcases Nat.eq_zero_or_pos (rstripSlash t).toList.length with hg | hg
    · exact absurd ((toList_eq_nil_iff_str _).mp (List.length_eq_zero.mp hg)) hrne
    · exact hg
  have hylen : ("https://" : String).toList.length = 8 := by decide
  rcases normalize_url_cases t with ⟨heq, hsplit⟩ | heq
  · rw [heq] at hinf
    rcases hsplit with hsp | hsp
    · -- rstrip t = "http://" ++ rest
      have hrest_ne : (rstripSlash t).toList.drop 7 ≠ [] := by
        intro hnil
        rw [hnil, List.append_nil] at hsp
        exact rstripSlash_ne_http t (String.ext hsp)
      have hrest_len : 0 < ((rstripSlash t).toList.drop 7).length :=
        List.length_pos.mpr hrest_ne
      have hlen_le := hinf.length_le
      rw [hylen, hsp, List.length_append] at hlen_le
      have h7 : ("http://" : String).toList.length = 7 := by decide
      rw [h7] at hlen_le
      have hlen_eq : (rstripSlash t).toList.length = 8 := by
        rw [hsp, List.length_append, h7]
        omega
      have heq8 : (rstripSlash t).toList = ("https://" : String).toList :=
        hinf.sublist.eq_of_length (by rw [hlen_eq, hylen])
      have hchar := congrArg (fun l => l[4]?) (hsp.symm.trans heq8)
      simp only at hchar
      rw [List.getElem?_append] at hchar
      have hlt : (4 : ℕ) < ("http://" : String).toList.length := by rw [h7]; omega
      rw [if_pos hlt] at hchar
      have hl : ("http://" : String).toList[4]? = some ':' := by decide
      have hr : ("https://" : String).toList[4]? = some 's' := by decide
      rw [hl, hr] at hchar
      exact absurd (Option.some_inj.mp hchar) (by decide)
    · -- rstrip t = "https://" ++ rest
      have hrest_ne : (rstripSlash t).toList.drop 8 ≠ [] := by
        intro hnil
        rw [hnil, List.append_nil] at hsp
        exact rstripSlash_ne_https t (String.ext hsp)
      have hrest_len : 0 < ((rstripSlash t).toList.drop 8).length :=
        List.length_pos.mpr hrest_ne
      have hlen_le := hinf.length_le
      rw [hylen, hsp, List.length_append] at hlen_le
      have h8 : ("https://" : String).toList.length = 8 := by decide
      rw [h8] at hlen_le
      omega
  · rw [heq] at hinf
    have hlen_le := hinf.length_le
    have hdata : ("https://" ++ rstripSlash t).toList
        = ("https://" : String).toList ++ (rstripSlash t).toList := by
      exact String.data_append _ _
    rw [hdata, List.length_append, hylen] at hlen_le
    omega

/-- C6 counterexample: the entry `{url := "/$", match_type := "domain"}`
passes `_validate_url` (its `$` marks it as a regex pattern, and
`re.compile("/$")` succeeds, modelled by the `re_compiles` argument), yet
`match_url` with an empty `found_url` returns `True`: the empty URL
normalizes to `https://` whose parsed host is empty, and the target
normalizes to `https:///$` whose parsed host is also empty. -/
theorem c6_counterexample :
    URLManager.match_url (fun _ _ => none)
        ⟨[{ url := "/$", match_type := "domain" }]⟩ "" "/$" = true
    ∧ URLManager.validate_url (fun _ => true) "/$" = true
    ∧ urlparse_netloc (URLManager.normalize_url "") = ""
    ∧ urlparse_netloc (URLManager.normalize_url "/$") = "" := by
  decide

/-- C6 (amended): for every stored target (one whose `url` passes
`_validate_url`), `match_url` with an empty `found_url` string returns
`false` and raises no exception under the `exact`, `contains` and
unknown-fallback policies, and under the `domain` policy whenever the
target's normalized URL has a nonempty parsed host; under the `domain`
policy with an empty target host (e.g. stored target `/$`) and under the
`regex` policy (e.g. stored target `a*`), an empty `found_url` can match. -/
theorem c6_empty_found_no_match (re_search : String → String → Option Bool)
    (re_compiles : String → Bool) (m : URLManager) (target_url : String)
    (hv : URLManager.validate_url re_compiles target_url = true)
    (hre : ∀ cfg, m.get_url_config target_url = some cfg → cfg.match_type ≠ "regex")
    (hdom : ∀ cfg, m.get_url_config target_url = some cfg →
        cfg.match_type = "domain" →
        urlparse_netloc (URLManager.normalize_url target_url) ≠ "") :
    URLManager.match_url re_search m "" target_url = false := by
  unfold URLManager.match_url
  cases hfind : m.get_url_config target_url with
  | none => rfl
  | some cfg =>
    show match_url_core re_search cfg.match_type "" target_url = false
    unfold match_url_core
    rw [show URLManager.normalize_url "" = "https://" from by decide]
    by_cases h1 : cfg.match_type = "exact"
    · have e1 : (cfg.match_type == "exact") = true := by simp [h1]
      rw [e1]
      simp only [if_pos]
      exact beq_eq_false_iff_ne.mpr
        (Ne.symm (normalize_ne_https_of_validate re_compiles target_url hv))
    · have e1 : (cfg.match_type == "exact") = false := by simp [h1]
      rw [e1]
      by_cases h2 : cfg.match_type = "contains"
      · have e2 : (cfg.match_type == "contains") = true := by simp [h2]
        rw [e2]
        simp only [Bool.false_eq_true, if_false, if_pos]
        exact not_contains_of_validate re_compiles target_url hv
      · have e2 : (cfg.match_type == "contains") = false := by simp [h2]
        rw [e2]
        by_cases h3 : cfg.match_type = "domain"
        · have e3 : (cfg.match_type == "domain") = true := by simp [h3]
          rw [e3]
          simp only [Bool.false_eq_true, if_false, if_pos]
          rw [show urlparse_netloc "https://" = "" from by decide]
          exact beq_eq_false_iff_ne.mpr (Ne.symm (hdom cfg hfind h3))
        · have e3 : (cfg.match_type == "domain") = false := by simp [h3]
          rw [e3]
          have h4 : cfg.match_type ≠ "regex" := hre cfg hfind
          have e4 : (cfg.match_type == "regex") = false := by simp [h4]
          rw [e4]
          simp only [Bool.false_eq_true, if_false]
          exact not_contains_of_validate re_compiles target_url hv

/-- Witness for C6 (amended): a stored `exact` target and the empty found
URL. -/
theorem c6_witness :
    URLManager.match_url (fun _ _ => none)
      ⟨[{ url := "https://t.com", match_type := "exact" }]⟩ "" "https://t.com"
      = false :=
  c6_empty_found_no_match (fun _ _ => none) (fun _ => false)
    ⟨[{ url := "https://t.com", match_type := "exact" }]⟩ "https://t.com"
    (by decide) (by decide) (by decide)
